import Mathlib

/-!
Shallow embedding of `src/python/zarrs_python/utils.py` (zarrs-python), the
translation/batching layer between zarr's indexing and the zarrs codec engine.

Python values are modelled as follows: `slice` objects become `PySlice`
(optional integer fields), one axis of a selection becomes `Selector`
(integer / slice / ellipsis / 1-D integer index array, per the data-model
invariant that fancy arrays reaching this layer are one-dimensional), a
`SelectorTuple` is either a bare slice, a bare index array, or a tuple of
selectors.  Raised exceptions become `Except PyError`.  Machine integers are
unbounded `Int` (Python semantics).
-/

namespace ZarrsPython

/-- A Python `slice(start, stop, step)` object; `none` models Python `None`. -/
structure PySlice where
  start : Option Int
  stop : Option Int
  step : Option Int
deriving DecidableEq

/-- CPython's `slice.indices(length)` normalization (assuming a nonzero step),
returning the `(start, stop, step)` triple. -/
def pyIndices (s : PySlice) (length : Nat) : Int × Int × Int :=
  let step : Int := s.step.getD 1
  let lower : Int := if step < 0 then -1 else 0
  let upper : Int := if step < 0 then (length : Int) - 1 else (length : Int)
  let start : Int :=
    match s.start with
    | none => if step < 0 then upper else lower
    | some v => if v < 0 then max (v + (length : Int)) lower else min v upper
  let stop : Int :=
    match s.stop with
    | none => if step < 0 then lower else upper
    | some v => if v < 0 then max (v + (length : Int)) lower else min v upper
  (start, stop, step)

/-- One axis of an index expression (the Selector Model). -/
inductive Selector where
  | int (i : Int)
  | slc (s : PySlice)
  | ellipsis
  | indexArray (positions : List Int)
deriving DecidableEq

/-- Payload carried by a `DiscontiguousArrayError`: either the offending
difference sequence (`np.diff` of the positions) or a message string. -/
inductive DiscontiguousPayload where
  | diffSeq (d : List Int)
  | message (m : String)
deriving DecidableEq

/-- The exceptions raised by `utils.py` (plus the builtin Python exceptions
its operations can raise). -/
inductive PyError where
  | discontiguousArray (p : DiscontiguousPayload)
  | collapsedDimension
  | indexError
  | valueError
  | broadcastError
deriving DecidableEq

/-- `np.diff` on a 1-D integer array: successive differences. -/
def diffs : List Int → List Int
  | a :: b :: rest => (b - a) :: diffs (b :: rest)
  | _ => []

/-- The per-axis body of `make_slice_selection`'s loop: integer to unit slice;
1-D index array to a unit slice (length 1) or, after the `np.diff` contiguity
check, to `slice(first, last + 1, 1)`; anything else appended unchanged. -/
def reduceSelector : Selector → Except PyError Selector
  | .int i => .ok (.slc ⟨some i, some (i + 1), some 1⟩)
  | .indexArray [] => .error .indexError
  | .indexArray [p] => .ok (.slc ⟨some p, some (p + 1), some 1⟩)
  | .indexArray (p :: q :: rest) =>
      let d := diffs (p :: q :: rest)
      if (d.any fun x => x != 1) && (d.any fun x => x != 0) then
        .error (.discontiguousArray (.diffSeq d))
      else
        .ok (.slc ⟨some p, some ((p :: q :: rest).getLastD 0 + 1), some 1⟩)
  | .slc s => .ok (.slc s)
  | .ellipsis => .ok .ellipsis

/-- Number of axes of a selection that are numpy arrays. -/
def countArrays (sel : List Selector) : Nat :=
  (sel.filter fun s => match s with | .indexArray _ => true | _ => false).length

/-- Number of axes of a selection that are slice objects. -/
def countSlices (sel : List Selector) : Nat :=
  (sel.filter fun s => match s with | .slc _ => true | _ => false).length

/-- The message of the post-loop vindexing guard in `make_slice_selection`. -/
def vindexMsg : String := "Vindexing with only contiguous numpy arrays is not supported"

/-- The `for` loop of `make_slice_selection`: reduce each axis in order,
propagating the first raised error. -/
def reduceAll : List Selector → Except PyError (List Selector)
  | [] => .ok []
  | s :: rest => do
      let r ← reduceSelector s
      let rs ← reduceAll rest
      .ok (r :: rs)

/-- `utils.make_slice_selection`: per-axis reduction loop, then the guard
`sum(ndarray) == sum(slice) == len(selection)` raising
`DiscontiguousArrayError`. -/
def make_slice_selection (selection : List Selector) : Except PyError (List Selector) := do
  let ls ← reduceAll selection
  if countArrays selection == countSlices selection && countSlices selection == selection.length then
    .error (.discontiguousArray (.message vindexMsg))
  else
    .ok ls

/-- A zarr `SelectorTuple`: a bare slice, a bare (1-D) numpy index array, or a
tuple of per-axis selectors. -/
inductive SelectorTuple where
  | bareSlice (s : PySlice)
  | bareArray (positions : List Int)
  | tuple (sel : List Selector)
deriving DecidableEq

/-- `utils.selector_tuple_to_slice_selection`.  A bare slice is wrapped as a
singleton; iterating a bare numpy array yields its integer elements (so the
all-slices test succeeds only when the array is empty); otherwise the
all-slices tuple passes through and anything else goes to
`make_slice_selection`. -/
def selector_tuple_to_slice_selection : SelectorTuple → Except PyError (List Selector)
  | .bareSlice s => .ok [.slc s]
  | .bareArray ps =>
      if ps.isEmpty then .ok []
      else make_slice_selection (ps.map .int)
  | .tuple sel =>
      if sel.all fun s => match s with | .slc _ => true | _ => false then .ok sel
      else make_slice_selection sel

/-- Python list element access `l[i]` with negative-index wraparound;
out-of-range access raises `IndexError`. -/
def pyListGet (l : List Nat) (i : Int) : Except PyError Nat :=
  let j : Int := if i < 0 then i + l.length else i
  if 0 ≤ j ∧ j < l.length then .ok (l.getD j.toNat 0) else .error .indexError

/-- Python list slicing `l[a:b]` (unit step): clamping with negative-index
wraparound, never raising. -/
def pyListSlice (l : List Nat) (a b : Int) : List Nat :=
  let n : Int := l.length
  let start : Int := if a < 0 then max (a + n) 0 else min a n
  let stop : Int := if b < 0 then max (b + n) 0 else min b n
  (l.drop start.toNat).take (stop - start).toNat

/-- Whether a selector is a slice whose step is present and greater than 1. -/
def stepGt1 : Selector → Bool
  | .slc s => match s.step with | some st => 1 < st | _ => false
  | _ => false

/-- Whether a selector is a slice whose step is present and equal to 0
(on which `slice.indices` raises `ValueError`). -/
def stepZero : Selector → Bool
  | .slc s => s.step = some 0
  | _ => false

/-- One iteration of the loop in `resulting_shape_from_index`, acting on the
accumulated result shape and the `basic_shape_index` cursor.  Integer indices
just advance the cursor; slices are checked for step > 1, then normalized via
`slice.indices` against the cursor's dimension and contribute `stop - start`;
an ellipsis fills `len(array_shape) - len(index_tuple) + 1` dimensions; numpy
arrays fall through every branch (they were consumed before the loop). -/
def resolveStep (array_shape : List Nat) (L : Nat) (res : List Int) (cur : Int) :
    Selector → Except PyError (List Int × Int)
  | .int _ => .ok (res, cur + 1)
  | .slc s =>
      if stepGt1 (.slc s) then
        .error (.discontiguousArray (.message "Step size greater than 1 is not supported"))
      else if stepZero (.slc s) then .error .valueError
      else do
        let n ← pyListGet array_shape cur
        let t := pyIndices s n
        .ok (res ++ [t.2.1 - t.1], cur + 1)
  | .ellipsis =>
      let numToFill : Int := (array_shape.length : Int) - (L : Int) + 1
      .ok (res ++ (pyListSlice array_shape cur (cur + numToFill)).map Int.ofNat,
        cur + numToFill)
  | .indexArray _ => .ok (res, cur)

/-- The loop of `resulting_shape_from_index` over the index tuple. -/
def resolveLoop (array_shape : List Nat) (L : Nat) :
    List Selector → List Int → Int → Except PyError (List Int × Int)
  | [], res, cur => .ok (res, cur)
  | s :: rest, res, cur => do
      let rc ← resolveStep array_shape L res cur s
      resolveLoop array_shape L rest rc.1 rc.2

/-- Broadcasting of two sizes along one dimension (numpy rules). -/
def broadcastDim (m n : Nat) : Except PyError Nat :=
  if m = n then .ok m else if m = 1 then .ok n else if n = 1 then .ok m else .error .broadcastError

/-- `np.broadcast_shapes` over the (1-D) shapes of the advanced indices,
returning the single broadcast dimension. -/
def broadcastAll (acc : Nat) : List Nat → Except PyError Nat
  | [] => .ok acc
  | d :: rest => do
      let acc2 ← broadcastDim acc d
      broadcastAll acc2 rest

/-- The (1-D) shapes of the numpy-array selectors of a selection. -/
def advShapes (sel : List Selector) : List Nat :=
  sel.filterMap fun s =>
    match s with | .indexArray ps => some ps.length | _ => none

/-- The advanced-index pre-phase of `resulting_shape_from_index`: collect the
shapes of all numpy-array selectors; if any exist, seed the result shape with
their broadcast shape and advance the cursor by their count. -/
def initAdvanced (sel : List Selector) : Except PyError (List Int × Int) :=
  if (advShapes sel).isEmpty then .ok ([], 0)
  else do
    let b ← broadcastAll 1 (advShapes sel)
    .ok ([(b : Int)], ((advShapes sel).length : Int))

/-- The final comprehension of `resulting_shape_from_index`: keep the sizes
whose axis index is not listed in `drop_axes`, preserving order. -/
def dropAxes (drop : List Nat) (res : List Int) : List Int :=
  (res.enum.filter fun p => !(drop.contains p.1)).map Prod.snd

/-- `resulting_shape_from_index` up to (but not including) the final
`drop_axes` comprehension: advanced-index pre-phase, the per-selector loop,
then optional padding with the remaining trailing dimensions. -/
def resolveCore (array_shape : List Nat) (index_tuple : List Selector) (pad : Bool) :
    Except PyError (List Int) := do
  let init ← initAdvanced index_tuple
  let rc ← resolveLoop array_shape index_tuple.length index_tuple init.1 init.2
  if rc.2 < (array_shape.length : Int) ∧ pad = true then
    .ok (rc.1 ++ (pyListSlice array_shape rc.2 array_shape.length).map Int.ofNat)
  else
    .ok rc.1

/-- `utils.resulting_shape_from_index`. -/
def resulting_shape_from_index (array_shape : List Nat) (index_tuple : List Selector)
    (drop_axes : List Nat) (pad : Bool) : Except PyError (List Int) := do
  let res ← resolveCore array_shape index_tuple pad
  .ok (dropAxes drop_axes res)

/-- `utils.get_shape_for_selector`: a bare slice or bare numpy array is
wrapped as a 1-tuple before resolving. -/
def get_shape_for_selector (selector_tuple : SelectorTuple) (shape : List Nat)
    (drop_axes : List Nat) (pad : Bool) : Except PyError (List Int) :=
  match selector_tuple with
  | .bareSlice s => resulting_shape_from_index shape [.slc s] drop_axes pad
  | .bareArray ps => resulting_shape_from_index shape [.indexArray ps] drop_axes pad
  | .tuple sel => resulting_shape_from_index shape sel drop_axes pad

/-- Chunk metadata (`ArraySpec`): shape, dtype rendered as a string, and the
fill value rendered as raw bytes. -/
structure ArraySpec where
  shape : List Nat
  dtype : String
  fill_value : List Nat
deriving DecidableEq

/-- `utils.convert_chunk_to_primitive`: the engine-facing chunk descriptor
`(str(byte_getter), chunk_spec.shape, str(dtype), fill_value.tobytes())`. -/
def convert_chunk_to_primitive (byte_getter : String) (chunk_spec : ArraySpec) :
    String × List Nat × String × List Nat :=
  (byte_getter, chunk_spec.shape, chunk_spec.dtype, chunk_spec.fill_value)

/-- One element of the `batch_info` iterable handed to the batch builder. -/
structure BatchEntry where
  byte_getter : String
  chunk_spec : ArraySpec
  chunk_selection : SelectorTuple
  out_selection : SelectorTuple
deriving DecidableEq

/-- The validation body of `make_chunk_info_for_rust_with_indices` for one
entry: resolve the output-relative shape with `pad=False`, `drop_axes=()` and
the chunk-relative shape with `pad=True` and the given `drop_axes`; raise
`CollapsedDimensionError` when the two ranks differ. -/
def validateEntry (drop_axes : List Nat) (e : BatchEntry) : Except PyError Unit := do
  let shape_out ← get_shape_for_selector e.out_selection e.chunk_spec.shape [] false
  let shape_chunk ← get_shape_for_selector e.chunk_selection e.chunk_spec.shape drop_axes true
  if shape_chunk.length != shape_out.length then .error .collapsedDimension else .ok ()

/-- The validation `for`-loop of `make_chunk_info_for_rust_with_indices`. -/
def validateAll (drop_axes : List Nat) : List BatchEntry → Except PyError Unit
  | [] => .ok ()
  | e :: rest => do
      validateEntry drop_axes e
      validateAll drop_axes rest

/-- The descriptor-building comprehension of
`make_chunk_info_for_rust_with_indices`. -/
def buildDescriptors :
    List BatchEntry →
      Except PyError (List ((String × List Nat × String × List Nat) × List Selector × List Selector))
  | [] => .ok []
  | e :: rest => do
      let outSel ← selector_tuple_to_slice_selection e.out_selection
      let chunkSel ← selector_tuple_to_slice_selection e.chunk_selection
      let restInfo ← buildDescriptors rest
      .ok ((convert_chunk_to_primitive e.byte_getter e.chunk_spec, outSel, chunkSel) :: restInfo)

/-- `utils.make_chunk_info_for_rust_with_indices`: validate every entry's two
resolved shapes first, then build all batch descriptors. -/
def make_chunk_info_for_rust_with_indices (batch_info : List BatchEntry) (drop_axes : List Nat) :
    Except PyError (List ((String × List Nat × String × List Nat) × List Selector × List Selector)) := do
  validateAll drop_axes batch_info
  buildDescriptors batch_info

/-- `utils.make_chunk_info_for_rust`: the metadata-only variant with no
validation and no selection slices. -/
def make_chunk_info_for_rust (batch_info : List BatchEntry) :
    List (String × List Nat × String × List Nat) :=
  batch_info.map fun e => convert_chunk_to_primitive e.byte_getter e.chunk_spec

/-- `utils.get_max_threads`: `(os.cpu_count() or 1) + 4`, where `os.cpu_count()`
returns `None` when the machine parallelism is unavailable and Python's `or`
replaces a falsy value (`None` or `0`) by `1`. -/
def get_max_threads (cpu_count : Option Nat) : Nat :=
  (match cpu_count with
    | none => 1
    | some 0 => 1
    | some (n + 1) => n + 1) + 4

/-- Modelled from the spec: the number of elements `len(range(start, stop, step))`
selected by a normalized slice on a dimension of size `n`, per standard basic
slicing semantics (for step 1 this is `max (stop - start) 0`). -/
def sliceLen (s : PySlice) (n : Nat) : Int :=
  let t := pyIndices s n
  if t.2.2 = 1 then max (t.2.1 - t.1) 0
  else if 0 < t.2.2 then max ((t.2.1 - t.1 + t.2.2 - 1) / t.2.2) 0
  else max ((t.1 - t.2.1 - t.2.2 - 1) / (-t.2.2)) 0

/-- Modelled from the spec: the shape obtained by materializing a basic-indexing
selection (integers, slices, at most one ellipsis; no advanced indices) against
an array of the given shape, via standard basic slicing semantics.  Integer
selectors drop their dimension, a slice contributes its selected length, an
ellipsis expands to the dimensions not consumed by the remaining selectors, and
trailing unconsumed dimensions are kept.  Assumes a pre-validated selection
(integers in bounds, at most one ellipsis, rank not exceeded): the oracle for
the Shape Resolver comparison. -/
def numpyBasicResultShape : List Nat → List Selector → List Int
  | shape, [] => shape.map Int.ofNat
  | shape, .ellipsis :: rest =>
      (shape.take (shape.length - rest.length)).map Int.ofNat ++
        numpyBasicResultShape (shape.drop (shape.length - rest.length)) rest
  | shape, .int _ :: rest => numpyBasicResultShape (shape.drop 1) rest
  | [], .slc _ :: _ => []
  | n :: shape, .slc s :: rest => sliceLen s n :: numpyBasicResultShape shape rest
  | shape, .indexArray _ :: rest => numpyBasicResultShape (shape.drop 1) rest

/-- The consecutive ascending run `a, a+1, ..., a+n`. -/
def consecutive (a : Int) : Nat → List Int
  | 0 => [a]
  | n + 1 => a :: consecutive (a + 1) n

/-- Whether a selector is a numpy index array. -/
def isArraySel : Selector → Bool
  | .indexArray _ => true
  | _ => false

/-- Whether a selector is the ellipsis. -/
def isEllipsisSel : Selector → Bool
  | .ellipsis => true
  | _ => false

/-- Whether a selector is anything but a slice whose step is present and
different from 1 (i.e. every integer, ellipsis, array, or unit-step slice). -/
def unitStepSel : Selector → Bool
  | .slc s => match s.step with | none => true | some st => st == 1
  | _ => true

/-- Number of non-ellipsis selectors of a selection. -/
def nonEllCount (sel : List Selector) : Nat :=
  (sel.filter fun s => !(isEllipsisSel s)).length

/-- Number of ellipsis selectors of a selection. -/
def ellCount (sel : List Selector) : Nat := (sel.filter isEllipsisSel).length

/-- Whether a fallible result is a raised `DiscontiguousArrayError`. -/
def isDiscontiguousErr {α : Type} : Except PyError α → Bool
  | .error (.discontiguousArray _) => true
  | _ => false

/-- Whether a fallible result succeeded. -/
def isOkE {α : Type} : Except PyError α → Bool
  | .ok _ => true
  | _ => false

@[simp] lemma exceptBind_ok {α β : Type} (a : α) (f : α → Except PyError β) :
    (Except.ok a >>= f) = f a := rfl

@[simp] lemma exceptBind_error {α β : Type} (e : PyError) (f : α → Except PyError β) :
    ((Except.error e : Except PyError α) >>= f) = Except.error e := rfl

lemma dropAxes_nil (res : List Int) : dropAxes [] res = res := by
  simp [dropAxes, List.enum_map_snd]

/-- Claim C7: `drop_axes` is applied only to the final assembled result shape
(after any padding of trailing dimensions), removing the listed axes and
preserving the relative order of the remaining ones; in particular dropping
axis 0 from a selection resolving to shape `(3, 5)` yields `(5,)`. -/
theorem drop_axes_applied_last :
    (∀ (shape : List Nat) (sel : List Selector) (drop : List Nat) (pad : Bool),
      resulting_shape_from_index shape sel drop pad =
        Except.map (dropAxes drop) (resulting_shape_from_index shape sel [] pad)) ∧
    resulting_shape_from_index [3, 5]
      [.slc ⟨none, none, none⟩, .slc ⟨none, none, none⟩] [0] true = .ok [5] := by
  constructor
  · intro shape sel drop pad
    unfold resulting_shape_from_index
    cases h : resolveCore shape sel pad <;>
      simp [h, dropAxes_nil, Except.map]
  · rfl

/-- Claim C8: `get_max_threads` is the reported machine parallelism plus 4, a
pure function of that value, and at least 5, including when `os.cpu_count()`
reports `None`. -/
theorem worker_count_formula :
    (∀ n : Nat, 0 < n → get_max_threads (some n) = n + 4) ∧
    (∀ c : Option Nat, 5 ≤ get_max_threads c) ∧ get_max_threads none = 5 := by
  refine ⟨?_, ?_, rfl⟩
  · intro n hn
    cases n with
    | zero => omega
    | succ m => rfl
  · intro c
    cases c with
    | none => simp [get_max_threads]
    | some n => cases n <;> simp [get_max_threads]

/-- Witness for claim C8's theorem at parallelism 8. -/
theorem worker_count_formula_witness : 0 < 8 ∧ get_max_threads (some 8) = 8 + 4 :=
  ⟨by decide, worker_count_formula.1 8 (by decide)⟩

/-- Claim C10: the empty selection tuple hits the all-slices pass-through
branch of `selector_tuple_to_slice_selection` (vacuously all slices) and
returns the empty slice list with no error — even though the loop-free
`make_slice_selection` itself would raise on the empty tuple, since that is
the only input on which its vindexing guard fires. -/
theorem empty_selection_passthrough :
    selector_tuple_to_slice_selection (.tuple []) = .ok [] ∧
    make_slice_selection [] = .error (.discontiguousArray (.message vindexMsg)) :=
  ⟨rfl, rfl⟩

lemma reduceSelector_no_message (s : Selector) (m : String) :
    reduceSelector s ≠ .error (.discontiguousArray (.message m)) := by
  cases s with
  | int i => simp [reduceSelector]
  | slc s => simp [reduceSelector]
  | ellipsis => simp [reduceSelector]
  | indexArray ps =>
    match ps with
    | [] => simp [reduceSelector]
    | [p] => simp [reduceSelector]
    | p :: q :: rest =>
      simp only [reduceSelector]
      split <;> simp

lemma reduceAll_no_message (sel : List Selector) (m : String) :
    reduceAll sel ≠ .error (.discontiguousArray (.message m)) := by
  induction sel with
  | nil => simp [reduceAll]
  | cons s rest ih =>
    intro h
    simp only [reduceAll] at h
    cases h1 : reduceSelector s with
    | error e =>
      rw [h1] at h
      simp only [exceptBind_error] at h
      injection h with he
      subst he
      exact reduceSelector_no_message s m h1
    | ok r =>
      rw [h1] at h
      simp only [exceptBind_ok] at h
      cases h2 : reduceAll rest with
      | error e2 =>
        rw [h2] at h
        simp only [exceptBind_error] at h
        exact ih (h2.trans h)
      | ok rs =>
        rw [h2] at h
        simp at h

lemma counts_le (sel : List Selector) : countArrays sel + countSlices sel ≤ sel.length := by
  induction sel with
  | nil => simp [countArrays, countSlices]
  | cons s rest ih =>
    cases s <;>
      simp [countArrays, countSlices, List.filter_cons] at * <;>
      omega

lemma intOfNat_nonneg (n : Nat) : (0 : Int) ≤ Int.ofNat n := by
  rw [Int.ofNat_eq_natCast]
  exact Int.natCast_nonneg n

lemma castMax_map (l : List Nat) :
    (l.map Int.ofNat).map (fun x => max x 0) = l.map Int.ofNat := by
  induction l with
  | nil => rfl
  | cons n t ih =>
    simp only [List.map_cons]
    rw [ih, max_eq_left (intOfNat_nonneg n)]

lemma map_max_self (r : List Int) (h : ∀ x ∈ r, 0 ≤ x) : r.map (fun x => max x 0) = r := by
  induction r with
  | nil => rfl
  | cons x t ih =>
    simp only [List.map_cons]
    rw [max_eq_left (h x (List.mem_cons_self x t)),
      ih fun y hy => h y (List.mem_cons_of_mem x hy)]

lemma pyListGet_nat (l : List Nat) (c : Nat) (h : c < l.length) :
    pyListGet l (c : Int) = .ok (l.getD c 0) := by
  simp only [pyListGet]
  have h1 : ¬((c : Int) < 0) := by omega
  rw [if_neg h1, if_pos (by constructor <;> omega)]
  simp

lemma pyListSlice_nat (l : List Nat) (c k : Nat) (h : c + k ≤ l.length) :
    pyListSlice l (c : Int) ((c : Int) + (k : Int)) = (l.drop c).take k := by
  simp only [pyListSlice]
  have h1 : ¬((c : Int) < 0) := by omega
  have h2 : ¬((c : Int) + (k : Int) < 0) := by omega
  rw [if_neg h1, if_neg h2, min_eq_left (by omega), min_eq_left (by omega)]
  have h3 : (c : Int) + (k : Int) - (c : Int) = (k : Int) := by ring
  rw [h3]
  simp

lemma pyListSlice_to_end (l : List Nat) (c : Nat) (h : c ≤ l.length) :
    pyListSlice l (c : Int) (l.length : Int) = l.drop c := by
  have h2 : ((l.length : Nat) : Int) = (c : Int) + ((l.length - c : Nat) : Int) := by omega
  rw [h2, pyListSlice_nat l c (l.length - c) (by omega)]
  apply List.take_of_length_le
  simp [List.length_drop]

lemma ellCount_cons (s : Selector) (sel : List Selector) :
    ellCount (s :: sel) = (if isEllipsisSel s then 1 else 0) + ellCount sel := by
  by_cases h : isEllipsisSel s <;> simp [ellCount, List.filter_cons, h, Nat.add_comm]

lemma nonEllCount_cons (s : Selector) (sel : List Selector) :
    nonEllCount (s :: sel) = (if isEllipsisSel s then 0 else 1) + nonEllCount sel := by
  by_cases h : isEllipsisSel s <;> simp [nonEllCount, List.filter_cons, h, Nat.add_comm]

lemma nonEll_add_ell (sel : List Selector) : nonEllCount sel + ellCount sel = sel.length := by
  induction sel with
  | nil => rfl
  | cons s rest ih =>
    rw [nonEllCount_cons, ellCount_cons, List.length_cons]
    by_cases h : isEllipsisSel s <;> simp [h] <;> omega

lemma resolveLoop_nil (shape : List Nat) (L : Nat) (res : List Int) (cur : Int) :
    resolveLoop shape L [] res cur = .ok (res, cur) := rfl

lemma resolveLoop_cons (shape : List Nat) (L : Nat) (s : Selector) (rest : List Selector)
    (res : List Int) (cur : Int) :
    resolveLoop shape L (s :: rest) res cur =
      resolveStep shape L res cur s >>= fun rc => resolveLoop shape L rest rc.1 rc.2 := rfl

lemma resolveStep_int (shape : List Nat) (L : Nat) (res : List Int) (cur : Int) (i : Int) :
    resolveStep shape L res cur (.int i) = .ok (res, cur + 1) := rfl

lemma resolveStep_slc (shape : List Nat) (L : Nat) (res : List Int) (cur : Int) (s : PySlice)
    (hg : stepGt1 (.slc s) = false) (hz : stepZero (.slc s) = false) :
    resolveStep shape L res cur (.slc s) =
      pyListGet shape cur >>= fun n =>
        .ok (res ++ [(pyIndices s n).2.1 - (pyIndices s n).1], cur + 1) := by
  simp [resolveStep, hg, hz]

lemma resolveStep_ellipsis (shape : List Nat) (L : Nat) (res : List Int) (cur : Int) :
    resolveStep shape L res cur .ellipsis =
      .ok (res ++ (pyListSlice shape cur
          (cur + ((shape.length : Int) - (L : Int) + 1))).map Int.ofNat,
        cur + ((shape.length : Int) - (L : Int) + 1)) := rfl

lemma unitStep_not_gt1 (s : PySlice) (h : unitStepSel (.slc s) = true) :
    stepGt1 (.slc s) = false := by
  cases hs : s.step with
  | none => simp [stepGt1, hs]
  | some st =>
    have h1 : st = 1 := by simpa [unitStepSel, hs] using h
    simp [stepGt1, hs, h1]

lemma unitStep_not_zero (s : PySlice) (h : unitStepSel (.slc s) = true) :
    stepZero (.slc s) = false := by
  cases hs : s.step with
  | none => simp [stepZero, hs]
  | some st =>
    have h1 : st = 1 := by simpa [unitStepSel, hs] using h
    simp [stepZero, hs, h1]

lemma sliceLen_unit (s : PySlice) (n : Nat) (h : unitStepSel (.slc s) = true) :
    sliceLen s n = max ((pyIndices s n).2.1 - (pyIndices s n).1) 0 := by
  have hstep : (pyIndices s n).2.2 = 1 := by
    cases hs : s.step with
    | none => simp [pyIndices, hs]
    | some st =>
      have h1 : st = 1 := by simpa [unitStepSel, hs] using h
      simp [pyIndices, hs, h1]
  simp [sliceLen, hstep]

lemma resolveLoop_oracle (shape : List Nat) (L : Nat) :
    ∀ (sel : List Selector) (c : Nat) (res : List Int),
      (∀ s ∈ sel, isArraySel s = false) →
      (∀ s ∈ sel, unitStepSel s = true) →
      ellCount sel ≤ 1 →
      c + nonEllCount sel ≤ shape.length →
      (ellCount sel = 1 → c + sel.length = L) →
      ∃ (body : List Int) (c2 : Nat),
        c ≤ c2 ∧ c2 ≤ shape.length ∧
        resolveLoop shape L sel res (c : Int) = .ok (res ++ body, (c2 : Int)) ∧
        numpyBasicResultShape (shape.drop c) sel =
          (body ++ (shape.drop c2).map Int.ofNat).map fun x => max x 0 := by
  intro sel
  induction sel with
  | nil =>
    intro c res _ _ _ hc _
    have hc2 : c ≤ shape.length := by
      simp [nonEllCount] at hc
      omega
    refine ⟨[], c, le_refl c, hc2, by simp [resolveLoop_nil], ?_⟩
    simp only [numpyBasicResultShape, List.nil_append]
    exact (castMax_map _).symm
  | cons s rest ih =>
    intro c res harr hstep hell hc hL
    have harr_s := harr s (List.mem_cons_self s rest)
    have harr_rest : ∀ x ∈ rest, isArraySel x = false := fun x hx =>
      harr x (List.mem_cons_of_mem s hx)
    have hstep_rest : ∀ x ∈ rest, unitStepSel x = true := fun x hx =>
      hstep x (List.mem_cons_of_mem s hx)
    cases s with
    | int i =>
      rw [nonEllCount_cons] at hc
      rw [ellCount_cons] at hell
      simp [isEllipsisSel] at hc hell
      have hL2 : ellCount rest = 1 → (c + 1) + rest.length = L := by
        intro h1
        have h2 := hL (by rw [ellCount_cons]; simp [isEllipsisSel, h1])
        rw [List.length_cons] at h2
        omega
      obtain ⟨body, c2, h1, h2, h3, h4⟩ :=
        ih (c + 1) res harr_rest hstep_rest (by omega) (by omega) hL2
      refine ⟨body, c2, by omega, h2, ?_, ?_⟩
      · rw [resolveLoop_cons, resolveStep_int]
        simp only [exceptBind_ok]
        rw [show ((c : Int) + 1) = ((c + 1 : Nat) : Int) by push_cast; ring]
        exact h3
      · have heq : numpyBasicResultShape (shape.drop c) (Selector.int i :: rest) =
            numpyBasicResultShape (shape.drop (c + 1)) rest := by
          simp [numpyBasicResultShape, List.drop_drop]
        rw [heq]
        exact h4
    | slc s =>
      have hg := unitStep_not_gt1 s (hstep _ (List.mem_cons_self _ rest))
      have hz := unitStep_not_zero s (hstep _ (List.mem_cons_self _ rest))
      rw [nonEllCount_cons] at hc
      rw [ellCount_cons] at hell
      simp [isEllipsisSel] at hc hell
      have hclen : c < shape.length := by omega
      have hget := pyListGet_nat shape c hclen
      have hdropc : shape.drop c = shape.getD c 0 :: shape.drop (c + 1) := by
        rw [List.drop_eq_getElem_cons hclen]
        congr 1
        simp [List.getD_eq_getElem?_getD, List.getElem?_eq_getElem hclen]
      have hL2 : ellCount rest = 1 → (c + 1) + rest.length = L := by
        intro h1
        have h2 := hL (by rw [ellCount_cons]; simp [isEllipsisSel, h1])
        rw [List.length_cons] at h2
        omega
      obtain ⟨body, c2, h1, h2, h3, h4⟩ :=
        ih (c + 1)
          (res ++ [(pyIndices s (shape.getD c 0)).2.1 - (pyIndices s (shape.getD c 0)).1])
          harr_rest hstep_rest (by omega) (by omega) hL2
      refine ⟨((pyIndices s (shape.getD c 0)).2.1 - (pyIndices s (shape.getD c 0)).1) :: body,
        c2, by omega, h2, ?_, ?_⟩
      · rw [resolveLoop_cons, resolveStep_slc shape L res (c : Int) s hg hz, hget]
        simp only [exceptBind_ok]
        rw [show ((c : Int) + 1) = ((c + 1 : Nat) : Int) by push_cast; ring, h3]
        simp [List.append_assoc]
      · rw [hdropc]
        have heq : numpyBasicResultShape (shape.getD c 0 :: shape.drop (c + 1))
            (Selector.slc s :: rest) =
            sliceLen s (shape.getD c 0) :: numpyBasicResultShape (shape.drop (c + 1)) rest := by
          simp [numpyBasicResultShape]
        rw [heq, h4, sliceLen_unit s (shape.getD c 0) (hstep _ (List.mem_cons_self _ rest))]
        simp
    | ellipsis =>
      rw [nonEllCount_cons] at hc
      rw [ellCount_cons] at hell
      simp [isEllipsisSel] at hc hell
      have hellrest : ellCount rest = 0 := by omega
      have hrestlen : nonEllCount rest = rest.length := by
        have := nonEll_add_ell rest
        omega
      have hLeq : c + (rest.length + 1) = L := by
        have := hL (by rw [ellCount_cons]; simp [isEllipsisSel, hellrest])
        rw [List.length_cons] at this
        omega
      have hcr : c + rest.length ≤ shape.length := by omega
      have hck : c + (shape.length - c - rest.length) ≤ shape.length := by omega
      have hnum : (shape.length : Int) - (L : Int) + 1 =
          ((shape.length - c - rest.length : Nat) : Int) := by omega
      have hslice : pyListSlice shape (c : Int)
          ((c : Int) + ((shape.length : Int) - (L : Int) + 1)) =
          (shape.drop c).take (shape.length - c - rest.length) := by
        rw [hnum]
        exact pyListSlice_nat shape c (shape.length - c - rest.length) hck
      have hL2 : ellCount rest = 1 → (c + (shape.length - c - rest.length)) + rest.length = L := by
        intro h1
        omega
      obtain ⟨body, c2, h1, h2, h3, h4⟩ :=
        ih (c + (shape.length - c - rest.length))
          (res ++ ((shape.drop c).take (shape.length - c - rest.length)).map Int.ofNat)
          harr_rest hstep_rest (by omega) (by omega) hL2
      refine ⟨((shape.drop c).take (shape.length - c - rest.length)).map Int.ofNat ++ body,
        c2, by omega, h2, ?_, ?_⟩
      · rw [resolveLoop_cons, resolveStep_ellipsis, hslice]
        simp only [exceptBind_ok]
        rw [show ((c : Int) + ((shape.length : Int) - (L : Int) + 1)) =
            ((c + (shape.length - c - rest.length) : Nat) : Int) by omega, h3]
        simp [List.append_assoc]
      · have hkdrop : (shape.drop c).length - rest.length = shape.length - c - rest.length := by
          simp [List.length_drop]
        have heq : numpyBasicResultShape (shape.drop c) (Selector.ellipsis :: rest) =
            ((shape.drop c).take (shape.length - c - rest.length)).map Int.ofNat ++
              numpyBasicResultShape ((shape.drop c).drop (shape.length - c - rest.length)) rest := by
          simp only [numpyBasicResultShape]
          rw [hkdrop]
        rw [heq, List.drop_drop, h4]
        simp only [List.map_append, castMax_map, List.append_assoc]
    | indexArray ps => simp [isArraySel] at harr_s

lemma initAdvanced_no_arrays (sel : List Selector) (h : ∀ s ∈ sel, isArraySel s = false) :
    initAdvanced sel = .ok ([], 0) := by
  have hnil : advShapes sel = [] := by
    rw [advShapes, List.filterMap_eq_nil_iff]
    intro a ha
    have := h a ha
    cases a <;> simp_all [isArraySel]
  simp [initAdvanced, hnil]

lemma resolveCore_no_arrays (shape : List Nat) (sel : List Selector)
    (harr : ∀ s ∈ sel, isArraySel s = false)
    (hstep : ∀ s ∈ sel, unitStepSel s = true)
    (hell : ellCount sel ≤ 1)
    (harity : nonEllCount sel ≤ shape.length) :
    ∃ r : List Int, resolveCore shape sel true = .ok r ∧
      numpyBasicResultShape shape sel = r.map fun x => max x 0 := by
  obtain ⟨body, c2, h1, h2, h3, h4⟩ :=
    resolveLoop_oracle shape sel.length sel 0 [] harr hstep hell (by omega)
      fun _ => Nat.zero_add _
  simp only [Nat.cast_zero, List.nil_append] at h3
  refine ⟨body ++ (shape.drop c2).map Int.ofNat, ?_, ?_⟩
  · simp only [resolveCore, initAdvanced_no_arrays sel harr, exceptBind_ok, h3]
    by_cases hlt : c2 < shape.length
    · rw [if_pos ⟨by exact_mod_cast hlt, trivial⟩, pyListSlice_to_end shape c2 (le_of_lt hlt)]
    · have hc2 : c2 = shape.length := by omega
      subst hc2
      rw [if_neg (by simp)]
      simp [List.drop_length]
  · rw [show shape = shape.drop 0 from (List.drop_zero shape).symm] at h4 ⊢
    simp only [List.drop_zero] at h4 ⊢
    exact h4

/-- Claim C3 (amended): for a basic selection — no index arrays, at most one
ellipsis, at most rank-many non-ellipsis selectors — in which every slice has
unit step, whenever the Shape Resolver (with empty `drop_axes` and `pad=true`)
succeeds with a shape all of whose extents are nonnegative, that shape equals
the shape obtained by materializing the selection per basic slicing
semantics. -/
theorem basic_selection_shape_oracle (shape : List Nat) (sel : List Selector) (r : List Int)
    (harr : ∀ s ∈ sel, isArraySel s = false)
    (hstep : ∀ s ∈ sel, unitStepSel s = true)
    (hell : ellCount sel ≤ 1)
    (harity : nonEllCount sel ≤ shape.length)
    (hres : resulting_shape_from_index shape sel [] true = .ok r)
    (hnn : ∀ x ∈ r, 0 ≤ x) :
    r = numpyBasicResultShape shape sel := by
  obtain ⟨r0, hcore, horacle⟩ := resolveCore_no_arrays shape sel harr hstep hell harity
  rw [show resulting_shape_from_index shape sel [] true = .ok r0 by
    simp [resulting_shape_from_index, hcore, dropAxes_nil]] at hres
  injection hres with hr
  subst hr
  rw [horacle, map_max_self _ hnn]

/-- Counterexample to claim C3 as stated: on shape `(5,)`, the basic
selection `(slice(3, 1),)` materializes to shape `(0,)` (an empty slice), but
the Shape Resolver returns `(-2,)`: it appends `stop - start` without
clamping at zero. -/
theorem basic_selection_shape_counterexample :
    resulting_shape_from_index [5] [.slc ⟨some 3, some 1, none⟩] [] true = .ok [-2] ∧
    numpyBasicResultShape [5] [.slc ⟨some 3, some 1, none⟩] = [0] ∧
    ([-2] : List Int) ≠ [0] := ⟨rfl, rfl, by decide⟩

/-- Witness for claim C3's amended theorem at shape `(4,5,6)` with selection
`(1, ..., slice(1,4))`. -/
theorem basic_selection_shape_oracle_witness :
    resulting_shape_from_index [4, 5, 6] [.int 1, .ellipsis, .slc ⟨some 1, some 4, some 1⟩]
      [] true = .ok [5, 3] ∧
    ([5, 3] : List Int) =
      numpyBasicResultShape [4, 5, 6] [.int 1, .ellipsis, .slc ⟨some 1, some 4, some 1⟩] :=
  ⟨rfl, basic_selection_shape_oracle [4, 5, 6]
    [.int 1, .ellipsis, .slc ⟨some 1, some 4, some 1⟩] [5, 3]
    (by decide) (by decide) (by decide) (by decide) rfl (by decide)⟩

lemma broadcastDim_error (m n : Nat) (e : PyError) (h : broadcastDim m n = .error e) :
    e = .broadcastError := by
  simp only [broadcastDim] at h
  split at h
  · exact Except.noConfusion h
  · split at h
    · exact Except.noConfusion h
    · split at h
      · exact Except.noConfusion h
      · injection h with he
        exact he.symm

lemma broadcastAll_error : ∀ (ds : List Nat) (acc : Nat) (e : PyError),
    broadcastAll acc ds = .error e → e = .broadcastError := by
  intro ds
  induction ds with
  | nil => intro acc e h; exact Except.noConfusion h
  | cons d rest ih =>
    intro acc e h
    simp only [broadcastAll] at h
    cases hb : broadcastDim acc d with
    | error e2 =>
      rw [hb] at h
      simp only [exceptBind_error] at h
      injection h with he
      subst he
      exact broadcastDim_error acc d _ hb
    | ok acc2 =>
      rw [hb] at h
      simp only [exceptBind_ok] at h
      exact ih acc2 e h

lemma initAdvanced_error (sel : List Selector) (e : PyError) (h : initAdvanced sel = .error e) :
    e = .broadcastError := by
  simp only [initAdvanced] at h
  split at h
  · exact Except.noConfusion h
  · cases hb : broadcastAll 1 (advShapes sel) with
    | error e2 =>
      rw [hb] at h
      simp only [exceptBind_error] at h
      injection h with he
      subst he
      exact broadcastAll_error (advShapes sel) 1 _ hb
    | ok b =>
      rw [hb] at h
      simp only [exceptBind_ok] at h
      exact Except.noConfusion h

lemma pyListGet_error (l : List Nat) (i : Int) (e : PyError) (h : pyListGet l i = .error e) :
    e = .indexError := by
  simp only [pyListGet] at h
  split at h
  · split at h
    · exact Except.noConfusion h
    · injection h with he
      exact he.symm
  · split at h
    · exact Except.noConfusion h
    · injection h with he
      exact he.symm

lemma discont_of_resolveLoop (shape : List Nat) (L : Nat) :
    ∀ (sel : List Selector) (res : List Int) (cur : Int) (p : DiscontiguousPayload),
      resolveLoop shape L sel res cur = .error (.discontiguousArray p) →
      ∃ s ∈ sel, stepGt1 s = true := by
  intro sel
  induction sel with
  | nil => intro res cur p h; exact Except.noConfusion h
  | cons s rest ih =>
    intro res cur p h
    rw [resolveLoop_cons] at h
    cases s with
    | int i =>
      rw [resolveStep_int] at h
      simp only [exceptBind_ok] at h
      obtain ⟨x, hx, hgt⟩ := ih _ _ _ h
      exact ⟨x, List.mem_cons_of_mem _ hx, hgt⟩
    | slc s =>
      by_cases hg : stepGt1 (.slc s) = true
      · exact ⟨.slc s, List.mem_cons_self _ _, hg⟩
      · have hg2 : stepGt1 (.slc s) = false := by
          simp only [Bool.not_eq_true] at hg
          exact hg
        by_cases hz : stepZero (.slc s) = true
        · simp [resolveStep, hg2, hz] at h
        · have hz2 : stepZero (.slc s) = false := by
            simp only [Bool.not_eq_true] at hz
            exact hz
          rw [resolveStep_slc _ _ _ _ _ hg2 hz2] at h
          cases hget : pyListGet shape cur with
          | error e2 =>
            rw [hget] at h
            simp only [exceptBind_error] at h
            injection h with he
            subst he
            exact absurd (pyListGet_error shape cur _ hget) (by simp)
          | ok n =>
            rw [hget] at h
            simp only [exceptBind_ok] at h
            obtain ⟨x, hx, hgt⟩ := ih _ _ _ h
            exact ⟨x, List.mem_cons_of_mem _ hx, hgt⟩
    | ellipsis =>
      rw [resolveStep_ellipsis] at h
      simp only [exceptBind_ok] at h
      obtain ⟨x, hx, hgt⟩ := ih _ _ _ h
      exact ⟨x, List.mem_cons_of_mem _ hx, hgt⟩
    | indexArray ps =>
      rw [show resolveStep shape L res cur (.indexArray ps) = .ok (res, cur) from rfl] at h
      simp only [exceptBind_ok] at h
      obtain ⟨x, hx, hgt⟩ := ih _ _ _ h
      exact ⟨x, List.mem_cons_of_mem _ hx, hgt⟩

lemma discont_of_resulting (shape : List Nat) (sel : List Selector) (drop : List Nat)
    (pad : Bool) (p : DiscontiguousPayload)
    (h : resulting_shape_from_index shape sel drop pad = .error (.discontiguousArray p)) :
    ∃ s ∈ sel, stepGt1 s = true := by
  simp only [resulting_shape_from_index] at h
  cases hc : resolveCore shape sel pad with
  | error e =>
    rw [hc] at h
    simp only [exceptBind_error] at h
    injection h with he
    subst he
    simp only [resolveCore] at hc
    cases hi : initAdvanced sel with
    | error e2 =>
      rw [hi] at hc
      simp only [exceptBind_error] at hc
      injection hc with he2
      subst he2
      exact absurd (initAdvanced_error sel _ hi) (by simp)
    | ok init =>
      rw [hi] at hc
      simp only [exceptBind_ok] at hc
      cases hl : resolveLoop shape sel.length sel init.1 init.2 with
      | error e3 =>
        rw [hl] at hc
        simp only [exceptBind_error] at hc
        injection hc with he3
        subst he3
        exact discont_of_resolveLoop shape sel.length sel init.1 init.2 p hl
      | ok rc =>
        rw [hl] at hc
        simp only [exceptBind_ok] at hc
        split at hc <;> exact Except.noConfusion hc
  | ok r =>
    rw [hc] at h
    simp only [exceptBind_ok] at h
    exact Except.noConfusion h

lemma stepGt1_unit_false (x : Selector) (h : stepGt1 x = true) : unitStepSel x = false := by
  cases x with
  | slc s =>
    cases hs : s.step with
    | none => simp [stepGt1, hs] at h
    | some st =>
      have h1 : (1 : Int) < st := by simpa [stepGt1, hs] using h
      have h2 : st ≠ 1 := by omega
      simp [unitStepSel, hs, h2]
  | int i => simp [stepGt1] at h
  | ellipsis => simp [stepGt1] at h
  | indexArray ps => simp [stepGt1] at h

lemma resolveLoop_step_gt_one (shape : List Nat) (L : Nat) :
    ∀ (sel : List Selector) (c : Nat) (res : List Int),
      (∀ s ∈ sel, isArraySel s = false) →
      (∀ s ∈ sel, stepZero s = false) →
      ellCount sel ≤ 1 →
      c + nonEllCount sel ≤ shape.length →
      (ellCount sel = 1 → c + sel.length = L) →
      (∃ s ∈ sel, stepGt1 s = true) →
      resolveLoop shape L sel res (c : Int) =
        .error (.discontiguousArray (.message "Step size greater than 1 is not supported")) := by
  intro sel
  induction sel with
  | nil =>
    intro c res _ _ _ _ _ hex
    simp at hex
  | cons s rest ih =>
    intro c res harr hz hell hc hL hex
    have harr_rest : ∀ x ∈ rest, isArraySel x = false := fun x hx =>
      harr x (List.mem_cons_of_mem s hx)
    have hz_rest : ∀ x ∈ rest, stepZero x = false := fun x hx =>
      hz x (List.mem_cons_of_mem s hx)
    cases s with
    | int i =>
      rw [nonEllCount_cons] at hc
      rw [ellCount_cons] at hell
      simp [isEllipsisSel] at hc hell
      have hex2 : ∃ x ∈ rest, stepGt1 x = true := by
        obtain ⟨x, hx, hgt⟩ := hex
        rcases List.mem_cons.mp hx with rfl | hx2
        · simp [stepGt1] at hgt
        · exact ⟨x, hx2, hgt⟩
      have hL2 : ellCount rest = 1 → (c + 1) + rest.length = L := by
        intro h1
        have h2 := hL (by rw [ellCount_cons]; simp [isEllipsisSel, h1])
        rw [List.length_cons] at h2
        omega
      rw [resolveLoop_cons, resolveStep_int]
      simp only [exceptBind_ok]
      rw [show ((c : Int) + 1) = ((c + 1 : Nat) : Int) by push_cast; ring]
      exact ih (c + 1) res harr_rest hz_rest (by omega) (by omega) hL2 hex2
    | slc s =>
      by_cases hg : stepGt1 (.slc s) = true
      · rw [resolveLoop_cons,
          show resolveStep shape L res (c : Int) (.slc s) =
            .error (.discontiguousArray
              (.message "Step size greater than 1 is not supported")) by
            simp [resolveStep, hg]]
        rfl
      · have hg2 : stepGt1 (.slc s) = false := by
          simp only [Bool.not_eq_true] at hg
          exact hg
        have hz2 : stepZero (.slc s) = false := hz _ (List.mem_cons_self _ rest)
        rw [nonEllCount_cons] at hc
        rw [ellCount_cons] at hell
        simp [isEllipsisSel] at hc hell
        have hclen : c < shape.length := by omega
        have hex2 : ∃ x ∈ rest, stepGt1 x = true := by
          obtain ⟨x, hx, hgt⟩ := hex
          rcases List.mem_cons.mp hx with rfl | hx2
          · exact absurd hgt (by simp [hg2])
          · exact ⟨x, hx2, hgt⟩
        have hL2 : ellCount rest = 1 → (c + 1) + rest.length = L := by
          intro h1
          have h2 := hL (by rw [ellCount_cons]; simp [isEllipsisSel, h1])
          rw [List.length_cons] at h2
          omega
        rw [resolveLoop_cons, resolveStep_slc shape L res (c : Int) s hg2 hz2,
          pyListGet_nat shape c hclen]
        simp only [exceptBind_ok]
        rw [show ((c : Int) + 1) = ((c + 1 : Nat) : Int) by push_cast; ring]
        exact ih (c + 1) _ harr_rest hz_rest (by omega) (by omega) hL2 hex2
    | ellipsis =>
      rw [nonEllCount_cons] at hc
      rw [ellCount_cons] at hell
      simp [isEllipsisSel] at hc hell
      have hellrest : ellCount rest = 0 := by omega
      have hrestlen : nonEllCount rest = rest.length := by
        have := nonEll_add_ell rest
        omega
      have hLeq : c + (rest.length + 1) = L := by
        have := hL (by rw [ellCount_cons]; simp [isEllipsisSel, hellrest])
        rw [List.length_cons] at this
        omega
      have hck : c + (shape.length - c - rest.length) ≤ shape.length := by omega
      have hnum : (shape.length : Int) - (L : Int) + 1 =
          ((shape.length - c - rest.length : Nat) : Int) := by omega
      have hex2 : ∃ x ∈ rest, stepGt1 x = true := by
        obtain ⟨x, hx, hgt⟩ := hex
        rcases List.mem_cons.mp hx with rfl | hx2
        · simp [stepGt1] at hgt
        · exact ⟨x, hx2, hgt⟩
      have hL2 : ellCount rest = 1 →
          (c + (shape.length - c - rest.length)) + rest.length = L := by
        intro h1
        omega
      rw [resolveLoop_cons, resolveStep_ellipsis]
      simp only [exceptBind_ok]
      rw [show ((c : Int) + ((shape.length : Int) - (L : Int) + 1)) =
          ((c + (shape.length - c - rest.length) : Nat) : Int) by omega]
      exact ih (c + (shape.length - c - rest.length)) _ harr_rest hz_rest
        (by omega) (by omega) hL2 hex2
    | indexArray ps =>
      have := harr _ (List.mem_cons_self _ rest)
      simp [isArraySel] at this

/-- Claim C5: a basic selection (no index arrays, valid arity, no zero-step
slice) containing a slice whose step is present and greater than 1 makes the
Shape Resolver raise `DiscontiguousArrayError`; and a selection whose slices
all have step `None` or 1 never triggers that error. -/
theorem step_gt_one_raises :
    (∀ (shape : List Nat) (sel : List Selector) (drop : List Nat) (pad : Bool),
      (∀ s ∈ sel, isArraySel s = false) →
      (∀ s ∈ sel, stepZero s = false) →
      ellCount sel ≤ 1 →
      nonEllCount sel ≤ shape.length →
      (∃ s ∈ sel, stepGt1 s = true) →
      resulting_shape_from_index shape sel drop pad =
        .error (.discontiguousArray
          (.message "Step size greater than 1 is not supported"))) ∧
    (∀ (shape : List Nat) (sel : List Selector) (drop : List Nat) (pad : Bool),
      (∀ s ∈ sel, unitStepSel s = true) →
      isDiscontiguousErr (resulting_shape_from_index shape sel drop pad) = false) := by
  constructor
  · intro shape sel drop pad harr hz hell harity hex
    have hloop := resolveLoop_step_gt_one shape sel.length sel 0 [] harr hz hell
      (by omega) (fun _ => Nat.zero_add _) hex
    simp only [Nat.cast_zero] at hloop
    simp [resulting_shape_from_index, resolveCore, initAdvanced_no_arrays sel harr, hloop]
  · intro shape sel drop pad hunit
    cases hres : resulting_shape_from_index shape sel drop pad with
    | ok r => rfl
    | error e =>
      cases e with
      | discontiguousArray p =>
        obtain ⟨x, hx, hgt⟩ := discont_of_resulting shape sel drop pad p hres
        have h1 := hunit x hx
        rw [stepGt1_unit_false x hgt] at h1
        exact Bool.noConfusion h1
      | collapsedDimension => rfl
      | indexError => rfl
      | valueError => rfl
      | broadcastError => rfl

/-- Witness for claim C5's theorem: `slice(0, 4, 2)` on shape `(4,)` raises,
and the unit-step selection `slice(1, 3)` does not raise the
discontiguous-selection error. -/
theorem step_gt_one_raises_witness :
    resulting_shape_from_index [4] [.slc ⟨some 0, some 4, some 2⟩] [] false =
      .error (.discontiguousArray
        (.message "Step size greater than 1 is not supported")) ∧
    isDiscontiguousErr
      (resulting_shape_from_index [4] [.slc ⟨some 1, some 3, some 1⟩] [] true) = false :=
  ⟨step_gt_one_raises.1 [4] [.slc ⟨some 0, some 4, some 2⟩] [] false
      (by decide) (by decide) (by decide) (by decide) ⟨.slc ⟨some 0, some 4, some 2⟩, by decide, by decide⟩,
    step_gt_one_raises.2 [4] [.slc ⟨some 1, some 3, some 1⟩] [] true (by decide)⟩

/-- Claim C9: the step restriction of the Shape Resolver rejects only steps
strictly greater than 1, so a slice with a negative step (e.g. step -1) never
raises `DiscontiguousArrayError`; such a reversed slice passes the check and
contributes `stop - start` of its normalized indices — possibly a
non-positive extent — to the resolved shape. -/
theorem negative_step_passes :
    (∀ (shape : List Nat) (sel : List Selector) (drop : List Nat) (pad : Bool),
      (∀ s ∈ sel, stepGt1 s = false) →
      isDiscontiguousErr (resulting_shape_from_index shape sel drop pad) = false) ∧
    (∀ (n : Nat) (a b : Option Int) (st : Int), st < 0 →
      resulting_shape_from_index [n] [.slc ⟨a, b, some st⟩] [] false =
        .ok [(pyIndices ⟨a, b, some st⟩ n).2.1 - (pyIndices ⟨a, b, some st⟩ n).1]) := by
  constructor
  · intro shape sel drop pad hng
    cases hres : resulting_shape_from_index shape sel drop pad with
    | ok r => rfl
    | error e =>
      cases e with
      | discontiguousArray p =>
        obtain ⟨x, hx, hgt⟩ := discont_of_resulting shape sel drop pad p hres
        rw [hng x hx] at hgt
        exact Bool.noConfusion hgt
      | collapsedDimension => rfl
      | indexError => rfl
      | valueError => rfl
      | broadcastError => rfl
  · intro n a b st hst
    have hg : stepGt1 (.slc ⟨a, b, some st⟩) = false := by
      simp only [stepGt1]
      simp only [decide_eq_false_iff_not]
      omega
    have hz : stepZero (.slc ⟨a, b, some st⟩) = false := by
      simp only [stepZero]
      simp only [decide_eq_false_iff_not]
      intro hcontra
      injection hcontra with hv
      omega
    have hinit : initAdvanced [Selector.slc ⟨a, b, some st⟩] = .ok ([], 0) :=
      initAdvanced_no_arrays _ (by intro x hx; simp at hx; subst hx; rfl)
    simp only [resulting_shape_from_index, resolveCore, hinit, exceptBind_ok]
    rw [show ((0 : Int)) = ((0 : Nat) : Int) from rfl]
    rw [resolveLoop_cons, resolveStep_slc _ _ _ _ _ hg hz,
      pyListGet_nat [n] 0 (by simp)]
    simp only [exceptBind_ok, resolveLoop_nil]
    rw [if_neg (by simp)]
    simp [dropAxes_nil]

/-- Witness for claim C9's theorem: `slice(None, None, -1)` on shape `(5,)`
resolves without a discontiguity error to the non-positive extent `(-5,)`. -/
theorem negative_step_passes_witness :
    isDiscontiguousErr
      (resulting_shape_from_index [3] [.slc ⟨none, none, some (-2)⟩] [] true) = false ∧
    resulting_shape_from_index [5] [.slc ⟨none, none, some (-1)⟩] [] false = .ok [-5] := by
  constructor
  · exact negative_step_passes.1 [3] [.slc ⟨none, none, some (-2)⟩] [] true (by decide)
  · have h := negative_step_passes.2 5 none none (-1) (by decide)
    simpa using h

lemma consecutive_succ (a : Int) (n : Nat) :
    consecutive a (n + 1) = a :: consecutive (a + 1) n := rfl

lemma consecutive_head_tail (a : Int) (n : Nat) : ∃ t, consecutive a n = a :: t := by
  cases n with
  | zero => exact ⟨[], rfl⟩
  | succ m => exact ⟨consecutive (a + 1) m, rfl⟩

lemma diffs_consecutive : ∀ (n : Nat) (a : Int), diffs (consecutive a n) = List.replicate n 1 := by
  intro n
  induction n with
  | zero => intro a; rfl
  | succ m ih =>
    intro a
    obtain ⟨t, ht⟩ := consecutive_head_tail (a + 1) m
    calc diffs (consecutive a (m + 1)) = diffs (a :: (a + 1) :: t) := by
          rw [consecutive_succ, ht]
    _ = (a + 1 - a) :: diffs ((a + 1) :: t) := rfl
    _ = 1 :: diffs (consecutive (a + 1) m) := by rw [← ht]; simp
    _ = 1 :: List.replicate m 1 := by rw [ih]
    _ = List.replicate (m + 1) 1 := rfl

lemma consecutive_getLastD : ∀ (n : Nat) (a d : Int), (consecutive a n).getLastD d = a + n := by
  intro n
  induction n with
  | zero => intro a d; simp [consecutive]
  | succ m ih =>
    intro a d
    rw [consecutive_succ, List.getLastD_cons, ih]
    push_cast
    ring

lemma any_replicate_ne (k : Nat) (v : Int) :
    (List.replicate k v).any (fun x => x != v) = false := by
  induction k with
  | zero => rfl
  | succ m ih => simp [List.replicate_succ, ih]

lemma reduceSelector_two (p q : Int) (rest : List Int) :
    reduceSelector (.indexArray (p :: q :: rest)) =
      if (diffs (p :: q :: rest)).any (fun x => x != 1) &&
          (diffs (p :: q :: rest)).any (fun x => x != 0) then
        .error (.discontiguousArray (.diffSeq (diffs (p :: q :: rest))))
      else
        .ok (.slc ⟨some p, some ((p :: q :: rest).getLastD 0 + 1), some 1⟩) := rfl

lemma mss_singleton (ps : List Int) :
    make_slice_selection [.indexArray ps] =
      Except.map (fun r => [r]) (reduceSelector (.indexArray ps)) := by
  cases h : reduceSelector (.indexArray ps) with
  | error e =>
    simp [make_slice_selection, reduceAll, h, Except.map]
  | ok r =>
    simp [make_slice_selection, reduceAll, h, Except.map, countArrays, countSlices]

lemma reduce_consecutive (n : Nat) (a : Int) :
    reduceSelector (.indexArray (consecutive a n)) =
      .ok (.slc ⟨some a, some (a + n + 1), some 1⟩) := by
  cases n with
  | zero => simp [consecutive, reduceSelector]
  | succ m =>
    obtain ⟨t, ht⟩ := consecutive_head_tail (a + 1) m
    have hc : consecutive a (m + 1) = a :: (a + 1) :: t := by rw [consecutive_succ, ht]
    have hd : diffs (a :: (a + 1) :: t) = List.replicate (m + 1) 1 := by
      rw [← hc]; exact diffs_consecutive (m + 1) a
    have hl : (a :: (a + 1) :: t).getLastD 0 = a + (m + 1 : Nat) := by
      rw [← hc]; exact consecutive_getLastD (m + 1) a 0
    rw [hc, reduceSelector_two, hd, hl]
    simp [any_replicate_ne]

/-- Claim C2: a 1-D `IndexArray` holding the strictly consecutive ascending
run `a, a+1, ..., a+n` reduces to the single slice `slice(a, a+n+1, 1)` for
that axis, while an `IndexArray` with an adjacent difference that is neither
1 nor 0 — a non-unit gap, as in `[2, 4]` — raises `DiscontiguousArrayError`. -/
theorem consecutive_reduces_gap_fails :
    (∀ (a : Int) (n : Nat),
      make_slice_selection [.indexArray (consecutive a n)] =
        .ok [.slc ⟨some a, some (a + n + 1), some 1⟩]) ∧
    (∀ (ps : List Int) (d : Int), d ∈ diffs ps → d ≠ 1 → d ≠ 0 →
      make_slice_selection [.indexArray ps] =
        .error (.discontiguousArray (.diffSeq (diffs ps)))) := by
  constructor
  · intro a n
    rw [mss_singleton, reduce_consecutive]
    rfl
  · intro ps d hmem h1 h0
    match ps with
    | [] => simp [diffs] at hmem
    | [p] => simp [diffs] at hmem
    | p :: q :: rest =>
      rw [mss_singleton, reduceSelector_two]
      have hcond : ((diffs (p :: q :: rest)).any fun x => x != 1) = true := by
        rw [List.any_eq_true]
        exact ⟨d, hmem, by simpa using h1⟩
      have hcond0 : ((diffs (p :: q :: rest)).any fun x => x != 0) = true := by
        rw [List.any_eq_true]
        exact ⟨d, hmem, by simpa using h0⟩
      rw [hcond, hcond0]
      rfl

/-- Witness for claim C2's theorem: `[2,3,4]` reduces to `slice(2,5,1)` and
`[2,4]` raises with difference sequence `[2]`. -/
theorem consecutive_reduces_gap_fails_witness :
    make_slice_selection [.indexArray [2, 3, 4]] = .ok [.slc ⟨some 2, some 5, some 1⟩] ∧
    make_slice_selection [.indexArray [2, 4]] =
      .error (.discontiguousArray (.diffSeq [2])) := by
  constructor
  · have h := consecutive_reduces_gap_fails.1 2 2
    norm_num [consecutive] at h
    exact h
  · exact consecutive_reduces_gap_fails.2 [2, 4] 2 (by decide) (by decide) (by decide)

lemma diffs_replicate (k : Nat) (p : Int) :
    diffs (List.replicate (k + 1) p) = List.replicate k 0 := by
  induction k with
  | zero => rfl
  | succ m ih =>
    show diffs (p :: p :: List.replicate m p) = List.replicate (m + 1) 0
    calc diffs (p :: p :: List.replicate m p)
        = (p - p) :: diffs (p :: List.replicate m p) := rfl
    _ = 0 :: diffs (List.replicate (m + 1) p) := by rw [sub_self]; rfl
    _ = 0 :: List.replicate m 0 := by rw [ih]
    _ = List.replicate (m + 1) 0 := rfl

lemma replicate_getLastD : ∀ (k : Nat) (p d : Int), (List.replicate (k + 1) p).getLastD d = p := by
  intro k
  induction k with
  | zero => intro p d; rfl
  | succ m ih =>
    intro p d
    show (p :: List.replicate (m + 1) p).getLastD d = p
    rw [List.getLastD_cons, ih]

/-- Claim C6: an `IndexArray` of length at least 2 all of whose positions
equal some `p` (differences uniformly 0) is accepted and reduces to
`slice(p, p+1, 1)`; an `IndexArray` whose differences are neither uniformly 1
nor uniformly 0 raises `DiscontiguousArrayError` carrying the difference
sequence. -/
theorem repeated_index_reduces_mixed_fails :
    (∀ (p : Int) (k : Nat), 2 ≤ k →
      make_slice_selection [.indexArray (List.replicate k p)] =
        .ok [.slc ⟨some p, some (p + 1), some 1⟩]) ∧
    (∀ ps : List Int, (¬ ∀ d ∈ diffs ps, d = 1) → (¬ ∀ d ∈ diffs ps, d = 0) →
      make_slice_selection [.indexArray ps] =
        .error (.discontiguousArray (.diffSeq (diffs ps)))) := by
  constructor
  · intro p k hk
    match k, hk with
    | m + 2, _ =>
      have hrep : List.replicate (m + 2) p = p :: p :: List.replicate m p := rfl
      have hd : diffs (p :: p :: List.replicate m p) = List.replicate (m + 1) 0 := by
        rw [← hrep]; exact diffs_replicate (m + 1) p
      have hl : (p :: p :: List.replicate m p).getLastD 0 = p := by
        rw [← hrep]; exact replicate_getLastD (m + 1) p 0
      rw [hrep, mss_singleton, reduceSelector_two, hd, hl]
      simp [any_replicate_ne]
      rfl
  · intro ps hall1 hall0
    push_neg at hall1 hall0
    obtain ⟨d1, hm1, hne1⟩ := hall1
    obtain ⟨d0, hm0, hne0⟩ := hall0
    match ps with
    | [] => simp [diffs] at hm1
    | [p] => simp [diffs] at hm1
    | p :: q :: rest =>
      rw [mss_singleton, reduceSelector_two]
      have hcond : ((diffs (p :: q :: rest)).any fun x => x != 1) = true := by
        rw [List.any_eq_true]
        exact ⟨d1, hm1, by simpa using hne1⟩
      have hcond0 : ((diffs (p :: q :: rest)).any fun x => x != 0) = true := by
        rw [List.any_eq_true]
        exact ⟨d0, hm0, by simpa using hne0⟩
      rw [hcond, hcond0]
      rfl

/-- Witness for claim C6's theorem: `[7,7,7]` reduces to `slice(7,8,1)` and
`[1,3,3]` (differences `[2,0]`, a mix) raises carrying `[2,0]`. -/
theorem repeated_index_reduces_mixed_fails_witness :
    make_slice_selection [.indexArray [7, 7, 7]] = .ok [.slc ⟨some 7, some 8, some 1⟩] ∧
    make_slice_selection [.indexArray [1, 3, 3]] =
      .error (.discontiguousArray (.diffSeq [2, 0])) := by
  constructor
  · exact repeated_index_reduces_mixed_fails.1 7 3 (by decide)
  · exact repeated_index_reduces_mixed_fails.2 [1, 3, 3] (by decide) (by decide)

lemma isOkE_iff {α : Type} (x : Except PyError α) : isOkE x = true ↔ ∃ v, x = .ok v := by
  cases x <;> simp [isOkE]

lemma reduceSelector_no_collapsed (s : Selector) :
    reduceSelector s ≠ .error .collapsedDimension := by
  cases s with
  | int i => simp [reduceSelector]
  | slc s => simp [reduceSelector]
  | ellipsis => simp [reduceSelector]
  | indexArray ps =>
    match ps with
    | [] => simp [reduceSelector]
    | [p] => simp [reduceSelector]
    | p :: q :: rest =>
      simp only [reduceSelector]
      split <;> simp

lemma reduceAll_no_collapsed (sel : List Selector) :
    reduceAll sel ≠ .error .collapsedDimension := by
  induction sel with
  | nil => simp [reduceAll]
  | cons s rest ih =>
    intro h
    simp only [reduceAll] at h
    cases h1 : reduceSelector s with
    | error e =>
      rw [h1] at h
      simp only [exceptBind_error] at h
      injection h with he
      subst he
      exact reduceSelector_no_collapsed s h1
    | ok r =>
      rw [h1] at h
      simp only [exceptBind_ok] at h
      cases h2 : reduceAll rest with
      | error e2 =>
        rw [h2] at h
        simp only [exceptBind_error] at h
        injection h with he2
        subst he2
        exact ih h2
      | ok rs =>
        rw [h2] at h
        simp at h

lemma mss_no_collapsed (sel : List Selector) :
    make_slice_selection sel ≠ .error .collapsedDimension := by
  intro h
  simp only [make_slice_selection] at h
  cases h1 : reduceAll sel with
  | error e =>
    rw [h1] at h
    simp only [exceptBind_error] at h
    injection h with he
    subst he
    exact reduceAll_no_collapsed sel h1
  | ok ls =>
    rw [h1] at h
    simp only [exceptBind_ok] at h
    split at h <;> simp_all

lemma selector_no_collapsed (st : SelectorTuple) :
    selector_tuple_to_slice_selection st ≠ .error .collapsedDimension := by
  cases st with
  | bareSlice s => simp [selector_tuple_to_slice_selection]
  | bareArray ps =>
    simp only [selector_tuple_to_slice_selection]
    split
    · simp
    · exact mss_no_collapsed _
  | tuple sel =>
    simp only [selector_tuple_to_slice_selection]
    split
    · simp
    · exact mss_no_collapsed _

lemma buildDescriptors_no_collapsed (batch : List BatchEntry) :
    buildDescriptors batch ≠ .error .collapsedDimension := by
  induction batch with
  | nil => simp [buildDescriptors]
  | cons e rest ih =>
    intro h
    simp only [buildDescriptors] at h
    cases h1 : selector_tuple_to_slice_selection e.out_selection with
    | error e1 =>
      rw [h1] at h
      simp only [exceptBind_error] at h
      injection h with he
      subst he
      exact selector_no_collapsed _ h1
    | ok outSel =>
      rw [h1] at h
      simp only [exceptBind_ok] at h
      cases h2 : selector_tuple_to_slice_selection e.chunk_selection with
      | error e2 =>
        rw [h2] at h
        simp only [exceptBind_error] at h
        injection h with he
        subst he
        exact selector_no_collapsed _ h2
      | ok chunkSel =>
        rw [h2] at h
        simp only [exceptBind_ok] at h
        cases h3 : buildDescriptors rest with
        | error e3 =>
          rw [h3] at h
          simp only [exceptBind_error] at h
          injection h with he
          subst he
          exact ih h3
        | ok restInfo =>
          rw [h3] at h
          simp at h

lemma validateEntry_err (drop : List Nat) (e : BatchEntry) (so sc : List Int)
    (ho : get_shape_for_selector e.out_selection e.chunk_spec.shape [] false = .ok so)
    (hcsel : get_shape_for_selector e.chunk_selection e.chunk_spec.shape drop true = .ok sc)
    (hne : sc.length ≠ so.length) :
    validateEntry drop e = .error .collapsedDimension := by
  simp only [validateEntry, ho, hcsel, exceptBind_ok]
  rw [if_pos (by simpa using hne)]

lemma validateEntry_ok (drop : List Nat) (e : BatchEntry) (so sc : List Int)
    (ho : get_shape_for_selector e.out_selection e.chunk_spec.shape [] false = .ok so)
    (hcsel : get_shape_for_selector e.chunk_selection e.chunk_spec.shape drop true = .ok sc)
    (heq : sc.length = so.length) :
    validateEntry drop e = .ok () := by
  simp only [validateEntry, ho, hcsel, exceptBind_ok]
  rw [if_neg (by simpa using heq)]

lemma validateAll_collapsed_iff (drop : List Nat) :
    ∀ batch : List BatchEntry,
      (∀ e ∈ batch,
        isOkE (get_shape_for_selector e.out_selection e.chunk_spec.shape [] false) = true ∧
        isOkE (get_shape_for_selector e.chunk_selection e.chunk_spec.shape drop true) = true) →
      (validateAll drop batch = .error .collapsedDimension ↔
        ∃ e ∈ batch, ∃ so sc,
          get_shape_for_selector e.out_selection e.chunk_spec.shape [] false = .ok so ∧
          get_shape_for_selector e.chunk_selection e.chunk_spec.shape drop true = .ok sc ∧
          sc.length ≠ so.length) := by
  intro batch
  induction batch with
  | nil =>
    intro _
    simp [validateAll]
  | cons e rest ih =>
    intro h
    have he := h e (List.mem_cons_self e rest)
    obtain ⟨so, hso⟩ := (isOkE_iff _).mp he.1
    obtain ⟨sc, hsc⟩ := (isOkE_iff _).mp he.2
    have hrest := fun x hx => h x (List.mem_cons_of_mem e hx)
    by_cases hlen : sc.length = so.length
    · have hv := validateEntry_ok drop e so sc hso hsc hlen
      rw [show validateAll drop (e :: rest) = validateAll drop rest by
        simp [validateAll, hv], ih hrest]
      constructor
      · rintro ⟨x, hx, so2, sc2, hso2, hsc2, hne⟩
        exact ⟨x, List.mem_cons_of_mem e hx, so2, sc2, hso2, hsc2, hne⟩
      · rintro ⟨x, hx, so2, sc2, hso2, hsc2, hne⟩
        rcases List.mem_cons.mp hx with rfl | hx2
        · rw [hso] at hso2
          injection hso2 with h1
          subst h1
          rw [hsc] at hsc2
          injection hsc2 with h2
          subst h2
          exact absurd hlen hne
        · exact ⟨x, hx2, so2, sc2, hso2, hsc2, hne⟩
    · have hv := validateEntry_err drop e so sc hso hsc hlen
      rw [show validateAll drop (e :: rest) = .error .collapsedDimension by
        simp [validateAll, hv]]
      constructor
      · intro _
        exact ⟨e, List.mem_cons_self e rest, so, sc, hso, hsc, hlen⟩
      · intro _
        rfl

/-- Claim C4: provided every entry's two shape resolutions succeed, the Chunk
Batch Builder raises `CollapsedDimensionError` exactly when some entry's
chunk-relative resolved shape (`pad=true`, the given `drop_axes`) and
output-relative resolved shape (`pad=false`, empty `drop_axes`) differ in
rank; the validation loop over all entries runs before any batch descriptor
is constructed, so on that error the result carries no descriptors. -/
theorem build_batch_collapsed_iff (batch : List BatchEntry) (drop : List Nat)
    (h : ∀ e ∈ batch,
      isOkE (get_shape_for_selector e.out_selection e.chunk_spec.shape [] false) = true ∧
      isOkE (get_shape_for_selector e.chunk_selection e.chunk_spec.shape drop true) = true) :
    make_chunk_info_for_rust_with_indices batch drop = .error .collapsedDimension ↔
      ∃ e ∈ batch, ∃ so sc,
        get_shape_for_selector e.out_selection e.chunk_spec.shape [] false = .ok so ∧
        get_shape_for_selector e.chunk_selection e.chunk_spec.shape drop true = .ok sc ∧
        sc.length ≠ so.length := by
  rw [← validateAll_collapsed_iff drop batch h]
  simp only [make_chunk_info_for_rust_with_indices]
  cases hv : validateAll drop batch with
  | error e =>
    simp only [hv, exceptBind_error]
    constructor
    · intro h2
      injection h2 with he
      subst he
      rfl
    · intro h2
      injection h2 with he
      subst he
      rfl
  | ok u =>
    simp only [hv, exceptBind_ok]
    constructor
    · intro hb
      exact absurd hb (buildDescriptors_no_collapsed batch)
    · intro hcontra
      exact Except.noConfusion hcontra

/-- Witness for claim C4's theorem: one entry over chunk shape `(2,2)` whose
chunk selection `(0, slice(None))` resolves to rank 1 while its out selection
`(slice(None), slice(None))` resolves to rank 2 makes the builder raise
`CollapsedDimensionError`. -/
theorem build_batch_collapsed_iff_witness :
    make_chunk_info_for_rust_with_indices
      [⟨"store/c/0/0", ⟨[2, 2], "int16", [255, 127]⟩,
        .tuple [.int 0, .slc ⟨none, none, none⟩],
        .tuple [.slc ⟨none, none, none⟩, .slc ⟨none, none, none⟩]⟩] [] =
      .error .collapsedDimension := by
  apply (build_batch_collapsed_iff
    [⟨"store/c/0/0", ⟨[2, 2], "int16", [255, 127]⟩,
      .tuple [.int 0, .slc ⟨none, none, none⟩],
      .tuple [.slc ⟨none, none, none⟩, .slc ⟨none, none, none⟩]⟩] [] (by decide)).mpr
  exact ⟨_, List.mem_cons_self _ _, [2, 2], [2], rfl, rfl, by decide⟩

/-- Claim C1 (evaluation of the code at the failing input): the vindexing
guard of `make_slice_selection` — the chained comparison
`sum(ndarray) == sum(slice) == len(selection)` — can fire only on the empty
selection, so a selection in which every axis is a contiguously reducible
`IndexArray` (pure vectorized indexing) is not rejected: it reduces to slices
with no error, contradicting the guard's own error message. -/
theorem vindex_guard_unreachable :
    (∀ sel, make_slice_selection sel =
        .error (.discontiguousArray (.message vindexMsg)) ↔ sel = []) ∧
    selector_tuple_to_slice_selection (.tuple [.indexArray [1, 2], .indexArray [3, 4]]) =
      .ok [.slc ⟨some 1, some 3, some 1⟩, .slc ⟨some 3, some 5, some 1⟩] := by
  constructor
  · intro sel
    constructor
    · intro h
      simp only [make_slice_selection] at h
      cases h1 : reduceAll sel with
      | error e =>
        rw [h1] at h
        simp only [exceptBind_error] at h
        exact absurd (h1.trans h) (reduceAll_no_message sel vindexMsg)
      | ok ls =>
        rw [h1] at h
        simp only [exceptBind_ok] at h
        split at h
        · rename_i hcond
          have h2 := counts_le sel
          simp only [Bool.and_eq_true, beq_iff_eq] at hcond
          have : sel.length = 0 := by omega
          exact List.length_eq_zero.mp this
        · simp at h
    · rintro rfl
      rfl
  · rfl

end ZarrsPython
